import Mathlib

/-!
Shallow embedding of `src/results_queue.rs` (danieldeb/jwalk).

The source file defines a plain MPSC results queue iterator
(`ResultsQueueIterator`) and a "sorted" iterator
(`SortedResultsQueueIterator`) that combines the channel's receive end, a
`BinaryHeap` buffer and a `SortedResultsQueueNextMatcher` position tracker.

Modelling conventions:
* Machine integers (`usize`) become `Nat`; `usize` subtraction is modelled
  with truncated `Nat` subtraction (the only subtraction in the source,
  `*remaining_siblings.last_mut().unwrap() -= 1`, is guarded in valid runs).
* Rust `Vec<usize>` becomes `List Nat`, with the vector's end (the side
  `push`/`pop`/`last_mut` act on) modelled as the END of the Lean list.
* The `.unwrap()` panics of `increment_past` are tracked by a separate
  `Option`-valued function; the total function leaves the empty list
  unchanged where the source would panic.
* The MPSC channel is modelled as the ordered list of entries it will still
  deliver (`pending`, receipt order) plus a `disconnected` flag that is set
  once every producer handle has been dropped. `try_recv` on an empty open
  channel returns `Empty`; a call of `next` that spins on `Empty` forever
  (or a `recv` that blocks forever) is modelled by returning `none` at the
  outer level, while `some (result, newState)` models a call that returns.
-/

/-- Modelled from the spec: `DirEntryContents` lives in `crate::walk`, which
is not part of the sources; §3 and §6 of the spec give its shape: a position
(`index_path`, the sequence of sibling indices from the root), a branch
count (`remaining_folders_with_contents`), and an opaque payload. -/
structure DirEntryContents where
  index_path : List Nat
  remaining_folders_with_contents : Nat
  payload : Nat
  deriving DecidableEq

/-- Modelled from the spec: the `Ord` instance of `DirEntryContents`
(in `crate::walk`, missing from the sources) is, per §3 and §9, the
reversed comparator that makes the `BinaryHeap` pop the position-wise
smallest entry: positions compare lexicographically element-wise, with a
position that is an initial segment of another ordered first. `posLe a b`
decides "position `a` is released no later than `b`". -/
def posLe : List Nat → List Nat → Bool
  | [], _ => true
  | _ :: _, [] => false
  | a :: as, b :: bs => if a < b then true else if b < a then false else posLe as bs

/-- The `BinaryHeap` buffer, modelled as a list kept sorted by `posLe`
(head = minimum, i.e. the element the reversed-comparator heap pops).
`insertEntry` models `BinaryHeap::push`. -/
def insertEntry (e : DirEntryContents) : List DirEntryContents → List DirEntryContents
  | [] => [e]
  | x :: xs => if posLe e.index_path x.index_path then e :: x :: xs else x :: insertEntry e xs

/-- `SortedResultsQueueNextMatcher`: the consumer-private position tracker.
Both stacks grow at the end of the list, like the Rust `Vec`s. -/
structure SortedResultsQueueNextMatcher where
  index_path : List Nat
  remaining_siblings : List Nat
  deriving DecidableEq

/-- `*v.last_mut().unwrap() op`: apply `f` to the last element of the list.
Total model: the empty list (where the source unwrap would panic) is left
unchanged; `increment_past?` tracks the panic cases. -/
def updateLast (f : Nat → Nat) : List Nat → List Nat
  | [] => []
  | [a] => [f a]
  | a :: b :: t => a :: updateLast f (b :: t)

/-- One pass of the unwinding `while` loop of `increment_past`
(lines 113–120): while `remaining_siblings` is non-empty and ends in `0`,
pop both stacks and increment the new last sibling index if any remains.
Each iteration pops one element, so `rs.length` steps of fuel make
`unwindFuel` exactly the loop. -/
def unwindFuel : Nat → List Nat → List Nat → List Nat × List Nat
  | 0, ip, rs => (ip, rs)
  | fuel + 1, ip, rs =>
    match rs.getLast? with
    | some 0 =>
      let ip' := ip.dropLast
      let rs' := rs.dropLast
      let ip'' := if ip'.isEmpty then ip' else updateLast (· + 1) ip'
      unwindFuel fuel ip'' rs'
    | _ => (ip, rs)

/-- The unwinding loop of `increment_past` run to completion. -/
def unwind (ip rs : List Nat) : List Nat × List Nat :=
  unwindFuel rs.length ip rs

/-- `SortedResultsQueueNextMatcher::increment_past` (lines 97–122), total
model. Decrement the remaining-sibling count at the innermost level; if the
released entry has children push a new level expecting its first child,
else advance the sibling index and unwind exhausted levels. -/
def SortedResultsQueueNextMatcher.increment_past
    (m : SortedResultsQueueNextMatcher) (entry : DirEntryContents) :
    SortedResultsQueueNextMatcher :=
  let rs := updateLast (· - 1) m.remaining_siblings
  if entry.remaining_folders_with_contents > 0 then
    { index_path := m.index_path ++ [0],
      remaining_siblings := rs ++ [entry.remaining_folders_with_contents] }
  else
    let ip := updateLast (· + 1) m.index_path
    let p := unwind ip rs
    { index_path := p.1, remaining_siblings := p.2 }

/-- Panic-tracking version of `increment_past`: `none` exactly when one of
the two `.unwrap()` calls (line 99 on `remaining_siblings`, line 110 on
`index_path`, the latter only in the `branch_count = 0` branch) panics. -/
def SortedResultsQueueNextMatcher.increment_past?
    (m : SortedResultsQueueNextMatcher) (entry : DirEntryContents) :
    Option SortedResultsQueueNextMatcher :=
  if m.remaining_siblings = [] then none
  else if entry.remaining_folders_with_contents = 0 ∧ m.index_path = [] then none
  else some (m.increment_past entry)

/-- `SortedResultsQueueNextMatcher::is_none` (lines 93–95). -/
def SortedResultsQueueNextMatcher.is_none (m : SortedResultsQueueNextMatcher) : Bool :=
  m.index_path.isEmpty

/-- `SortedResultsQueueNextMatcher::default` (lines 125–132): one open
level, expecting the root at index `0`, one sibling owed. -/
def SortedResultsQueueNextMatcher.default : SortedResultsQueueNextMatcher :=
  { index_path := [0], remaining_siblings := [1] }

/-- The MPSC channel as seen by the single consumer: the entries it will
still deliver, in receipt order, and whether every producer handle has been
dropped. -/
structure Channel where
  pending : List DirEntryContents
  disconnected : Bool
  deriving DecidableEq

/-- `ResultsQueue::push` (lines 44–51): enqueue at the back; fails exactly
when the consumer end is gone (modelled by the caller checking the flag). -/
def ResultsQueue.push (ch : Channel) (e : DirEntryContents) : Channel :=
  { ch with pending := ch.pending ++ [e] }

/-- `ResultsQueueIterator::next` (lines 53–61): a blocking `recv`.
`some (some e, ch')` — returned entry and channel after it; `some (none, ch)`
— the channel is disconnected and drained, the sequence ends; `none` — the
call blocks forever (open channel, nothing ever delivered). -/
def ResultsQueueIterator.next (ch : Channel) : Option (Option DirEntryContents × Channel) :=
  match ch.pending with
  | e :: rest => some (some e, { ch with pending := rest })
  | [] => if ch.disconnected then some (none, ch) else none

/-- `SortedResultsQueueIterator`: the buffer (sorted list modelling the
reversed-comparator `BinaryHeap`) and the tracker. The receiver is passed
separately as a `Channel`. -/
structure SortedResultsQueueIterator where
  receive_buffer : List DirEntryContents
  next_matcher : SortedResultsQueueNextMatcher
  deriving DecidableEq

/-- `new_sorted_results_queue` (lines 32–42): consumer-side initial state. -/
def new_sorted_results_queue : SortedResultsQueueIterator :=
  { receive_buffer := [], next_matcher := SortedResultsQueueNextMatcher.default }

/-- `SortedResultsQueueIterator::next` (lines 63–89). The `while` loop's
state only changes in branches that immediately `return` or `break`, and
`TryRecvError::Empty` with a fixed future delivery list recurs forever, so
one pass decides the call:
* buffer minimum matches the expected path (loop never entered): pop it,
  advance the tracker, return it (lines 83–88);
* otherwise, if the tracker is exhausted return `none` (lines 67–69);
* otherwise `try_recv` (lines 71–79): an arriving entry is pushed and the
  buffer minimum immediately popped and returned with NO tracker advance
  (lines 72–75); `Disconnected` breaks to the terminal drain (lines 83–88);
  `Empty` spins forever (modelled as outer `none`). -/
def SortedResultsQueueIterator.next (s : SortedResultsQueueIterator) (ch : Channel) :
    Option (Option DirEntryContents × SortedResultsQueueIterator × Channel) :=
  if (s.receive_buffer.head?.map (·.index_path)) = some s.next_matcher.index_path then
    match s.receive_buffer with
    | item :: rest =>
      some (some item, { receive_buffer := rest,
                         next_matcher := s.next_matcher.increment_past item }, ch)
    | [] => some (none, s, ch)
  else if s.next_matcher.is_none then
    some (none, s, ch)
  else
    match ch.pending with
    | dentry :: rest =>
      match insertEntry dentry s.receive_buffer with
      | item :: buf => some (some item, { s with receive_buffer := buf },
                             { ch with pending := rest })
      | [] => some (none, s, ch)
    | [] =>
      if ch.disconnected then
        match s.receive_buffer with
        | item :: rest =>
          some (some item, { receive_buffer := rest,
                             next_matcher := s.next_matcher.increment_past item }, ch)
        | [] => some (none, s, ch)
      else none

/-- Drive `ResultsQueueIterator::next` for a number of calls, collecting the
results; stop early if a call blocks forever. -/
def runPlain : Nat → Channel → List (Option DirEntryContents)
  | 0, _ => []
  | n + 1, ch =>
    match ResultsQueueIterator.next ch with
    | some (o, ch') => o :: runPlain n ch'
    | none => []

/-- Drive `SortedResultsQueueIterator::next` for a number of calls,
collecting the results; stop early if a call spins forever. -/
def runSorted : Nat → SortedResultsQueueIterator → Channel → List (Option DirEntryContents)
  | 0, _, _ => []
  | n + 1, s, ch =>
    match SortedResultsQueueIterator.next s ch with
    | some (o, s', ch') => o :: runSorted n s' ch'
    | none => []

/-- Apply `f` to the head of a list (identity on `[]`). With the stacks
reversed so that the head is the innermost level, this is "change the
innermost level's value". -/
def mapHead (f : Nat → Nat) : List Nat → List Nat
  | [] => []
  | a :: t => f a :: t

/-- Claim-side unwinding loop, over reversed stacks (head = innermost
level): pop a level only while the innermost remaining-count is `0` AND
more than one level remains open, incrementing the new innermost sibling
index after each pop. -/
def claimedUnwind : List Nat → List Nat → List Nat × List Nat
  | ip, 0 :: r :: rs =>
    match ip with
    | _ :: ip' => claimedUnwind (mapHead (· + 1) ip') (r :: rs)
    | [] => ([], 0 :: r :: rs)
  | ip, rs => (ip, rs)

/-- The claim's description of `advance(0)` (spec §4.3 steps 1 and 3):
decrement the innermost remaining-count, increment the innermost sibling
index, then run the claimed unwinding loop (pop only while more than one
level remains open). Stated over the matcher's Rust-ordered stacks by
reversing, acting, and reversing back. -/
def claimedAdvanceZero (m : SortedResultsQueueNextMatcher) : SortedResultsQueueNextMatcher :=
  let rsRev := mapHead (· - 1) m.remaining_siblings.reverse
  let ipRev := mapHead (· + 1) m.index_path.reverse
  let p := claimedUnwind ipRev rsRev
  { index_path := p.1.reverse, remaining_siblings := p.2.reverse }

/-- Amended unwinding loop, over reversed stacks: pop a level while the
innermost remaining-count is `0` and AT LEAST one level remains open (the
last level included), incrementing the new innermost sibling index after
each pop when a level remains. -/
def amendedUnwind : List Nat → List Nat → List Nat × List Nat
  | ip, 0 :: rs =>
    match ip with
    | _ :: ip' => amendedUnwind (mapHead (· + 1) ip') rs
    | [] => ([], 0 :: rs)
  | ip, rs => (ip, rs)

/-- The amended description of `advance(0)`: like `claimedAdvanceZero`, but
the unwinding loop also pops the outermost level when its remaining-count
reaches `0`, emptying the stacks entirely (traversal complete). -/
def amendedAdvanceZero (m : SortedResultsQueueNextMatcher) : SortedResultsQueueNextMatcher :=
  let rsRev := mapHead (· - 1) m.remaining_siblings.reverse
  let ipRev := mapHead (· + 1) m.index_path.reverse
  let p := amendedUnwind ipRev rsRev
  { index_path := p.1.reverse, remaining_siblings := p.2.reverse }

/-- The state invariant the consumer-side loop of the sorted iterator keeps:
an empty receive buffer and a tracker still expecting a position. Every
state the source code can actually reach has this shape, because the
early-return branch at lines 73–74 empties the buffer again right after the
only `push`, and never touches the matcher. -/
def SortedInv (s : SortedResultsQueueIterator) : Prop :=
  s.receive_buffer = [] ∧ s.next_matcher.index_path ≠ []

lemma updateLast_concat (f : Nat → Nat) (l : List Nat) (a : Nat) :
    updateLast f (l ++ [a]) = l ++ [f a] := by
  induction l with
  | nil => rfl
  | cons x t ih =>
    cases t with
    | nil => rfl
    | cons y t' => simpa [updateLast] using ih

lemma length_updateLast (f : Nat → Nat) (l : List Nat) :
    (updateLast f l).length = l.length := by
  induction l with
  | nil => rfl
  | cons x t ih =>
    cases t with
    | nil => rfl
    | cons y t' => simpa [updateLast] using ih

lemma mapHead_reverse (f : Nat → Nat) (l : List Nat) :
    (mapHead f l).reverse = updateLast f l.reverse := by
  cases l with
  | nil => rfl
  | cons a t => simp [mapHead, updateLast_concat]

lemma length_mapHead (f : Nat → Nat) (l : List Nat) :
    (mapHead f l).length = l.length := by
  cases l <;> rfl

lemma updateLast_eq_rev (f : Nat → Nat) (l : List Nat) :
    updateLast f l = (mapHead f l.reverse).reverse := by
  rw [mapHead_reverse, List.reverse_reverse]

/-- The source's end-based unwinding loop agrees with the reversed,
head-based `amendedUnwind` on stacks of equal depth. -/
lemma unwindFuel_eq_amendedUnwind :
    ∀ (rsRev ipRev : List Nat) (fuel : Nat),
      ipRev.length = rsRev.length → rsRev.length ≤ fuel →
      unwindFuel fuel ipRev.reverse rsRev.reverse =
        ((amendedUnwind ipRev rsRev).1.reverse, (amendedUnwind ipRev rsRev).2.reverse) := by
  intro rsRev
  induction rsRev with
  | nil =>
    intro ipRev fuel hlen _
    rw [List.length_nil, List.length_eq_zero] at hlen
    subst hlen
    cases fuel <;> rfl
  | cons r rs ih =>
    intro ipRev fuel hlen hfuel
    cases ipRev with
    | nil => simp at hlen
    | cons a ip =>
      cases fuel with
      | zero => exact absurd hfuel (by simp)
      | succ f =>
        cases r with
        | zero =>
          have h1 : ((rs.reverse ++ [0]).getLast?) = some 0 := List.getLast?_concat _
          have h2 : ((rs.reverse ++ [0]).dropLast) = rs.reverse := List.dropLast_concat
          have h3 : ((ip.reverse ++ [a]).dropLast) = ip.reverse := List.dropLast_concat
          have hcond : (if ip.reverse.isEmpty then ip.reverse
              else updateLast (· + 1) ip.reverse) = (mapHead (· + 1) ip).reverse := by
            cases ip with
            | nil => rfl
            | cons b t => simp [mapHead_reverse]
          have step : unwindFuel (f + 1) (a :: ip).reverse (0 :: rs).reverse =
              unwindFuel f (mapHead (· + 1) ip).reverse rs.reverse := by
            simp only [List.reverse_cons, unwindFuel, h1, h2, h3, hcond]
          rw [step]
          have := ih (mapHead (· + 1) ip) f
            (by simpa [length_mapHead] using Nat.succ_injective hlen)
            (by simpa using Nat.lt_succ_iff.mp (Nat.lt_of_lt_of_le (Nat.lt_succ_self _) hfuel))
          rw [this]
          rfl
        | succ k =>
          have h1 : ((rs.reverse ++ [k + 1]).getLast?) = some (k + 1) := List.getLast?_concat _
          have step : unwindFuel (f + 1) (a :: ip).reverse ((k + 1) :: rs).reverse =
              ((a :: ip).reverse, ((k + 1) :: rs).reverse) := by
            simp only [List.reverse_cons, unwindFuel, h1]
          rw [step]
          rfl

lemma unwind_eq_amendedUnwind (ipRev rsRev : List Nat)
    (hlen : ipRev.length = rsRev.length) :
    unwind ipRev.reverse rsRev.reverse =
      ((amendedUnwind ipRev rsRev).1.reverse, (amendedUnwind ipRev rsRev).2.reverse) := by
  have := unwindFuel_eq_amendedUnwind rsRev ipRev rsRev.reverse.length
    hlen (by simp)
  simpa [unwind] using this

lemma unwindFuel_length_eq :
    ∀ (fuel : Nat) (ip rs : List Nat), ip.length = rs.length →
      (unwindFuel fuel ip rs).1.length = (unwindFuel fuel ip rs).2.length := by
  intro fuel
  induction fuel with
  | zero => intro ip rs h; exact h
  | succ f ih =>
    intro ip rs h
    rcases hg : rs.getLast? with _ | r
    · simp only [unwindFuel, hg]
      exact h
    · cases r with
      | zero =>
        simp only [unwindFuel, hg]
        apply ih
        by_cases he : ip.dropLast.isEmpty <;>
          simp [he, length_updateLast, List.length_dropLast, h]
      | succ k =>
        simp only [unwindFuel, hg]
        exact h

lemma increment_past_length_eq (m : SortedResultsQueueNextMatcher) (e : DirEntryContents)
    (hlen : m.index_path.length = m.remaining_siblings.length) :
    (m.increment_past e).index_path.length = (m.increment_past e).remaining_siblings.length := by
  unfold SortedResultsQueueNextMatcher.increment_past
  by_cases hbc : e.remaining_folders_with_contents > 0
  · simp [hbc, length_updateLast, hlen]
  · simp only [hbc, if_false]
    exact unwindFuel_length_eq _ _ _ (by simp [length_updateLast, hlen])

lemma sorted_next_empty_buffer (s : SortedResultsQueueIterator) (ch : Channel)
    (hb : s.receive_buffer = []) (hm : s.next_matcher.index_path ≠ []) :
    SortedResultsQueueIterator.next s ch =
      (ResultsQueueIterator.next ch).map (fun p => (p.1, s, p.2)) := by
  obtain ⟨buf, m⟩ := s
  simp only at hb hm
  subst hb
  obtain ⟨pending, disc⟩ := ch
  cases pending with
  | nil =>
    cases disc <;>
      simp [SortedResultsQueueIterator.next, ResultsQueueIterator.next,
        SortedResultsQueueNextMatcher.is_none, List.isEmpty_iff, hm]
  | cons e rest =>
    simp [SortedResultsQueueIterator.next, ResultsQueueIterator.next,
      SortedResultsQueueNextMatcher.is_none, List.isEmpty_iff, hm, insertEntry]

lemma runSorted_disconnected (m : SortedResultsQueueNextMatcher) (hm : m.index_path ≠ []) :
    ∀ pending : List DirEntryContents,
      runSorted (pending.length + 1) ⟨[], m⟩ ⟨pending, true⟩ = pending.map some ++ [none] := by
  intro pending
  induction pending with
  | nil =>
    simp only [runSorted, sorted_next_empty_buffer ⟨[], m⟩ ⟨[], true⟩ rfl hm,
      ResultsQueueIterator.next]
    rfl
  | cons e rest ih =>
    have hstep := sorted_next_empty_buffer ⟨[], m⟩ ⟨e :: rest, true⟩ rfl hm
    simp only [ResultsQueueIterator.next, Option.map_some'] at hstep
    simp only [List.length_cons, runSorted, hstep, List.map_cons, List.cons_append]
    exact congrArg (some e :: ·) ih

lemma runPlain_disconnected :
    ∀ pending : List DirEntryContents,
      runPlain (pending.length + 1) ⟨pending, true⟩ = pending.map some ++ [none] := by
  intro pending
  induction pending with
  | nil => rfl
  | cons e rest ih =>
    simp only [List.length_cons, runPlain, ResultsQueueIterator.next, List.map_cons,
      List.cons_append]
    exact congrArg (some e :: ·) ih

/-- Claim C1: the spec demands that for any finite tree, fully announced
with correct branch counts and delivered in any order, the sorted iterator
yields the unique pre-order listing. The code instead yields arrival order:
for the tree root `[0]` (branch count 2) with leaf children `[0,0]` and
`[0,1]`, delivered in order `[0]`, `[0,1]`, `[0,0]` before the channel
closes, the output is the arrival order, which differs from the pre-order
listing `[0]`, `[0,0]`, `[0,1]`. -/
theorem C1_sorted_output_is_arrival_order_not_preorder :
    runSorted 4 new_sorted_results_queue
        { pending := [⟨[0], 2, 20⟩, ⟨[0, 1], 0, 22⟩, ⟨[0, 0], 0, 21⟩], disconnected := true } =
      [some ⟨[0], 2, 20⟩, some ⟨[0, 1], 0, 22⟩, some ⟨[0, 0], 0, 21⟩, none] ∧
    [some ⟨[0], 2, 20⟩, some ⟨[0, 1], 0, 22⟩, some ⟨[0, 0], 0, 21⟩, (none : Option DirEntryContents)] ≠
      [some ⟨[0], 2, 20⟩, some ⟨[0, 0], 0, 21⟩, some ⟨[0, 1], 0, 22⟩, none] := by
  decide

/-- Claim C2: the spec says a released entry always advances the tracker,
and a received entry that does not match the expectation is only buffered,
never released directly. In the code, the receive branch (lines 72–75)
returns `receive_buffer.pop()` immediately: the entry at position `[5]`,
which does not match the expected `[0]`, is released at once and the
matcher is left un-advanced. -/
theorem C2_release_without_advance :
    SortedResultsQueueIterator.next new_sorted_results_queue
        { pending := [⟨[5], 0, 50⟩], disconnected := false } =
      some (some ⟨[5], 0, 50⟩, new_sorted_results_queue,
        { pending := [], disconnected := false }) ∧
    (⟨[5], 0, 50⟩ : DirEntryContents).index_path ≠
      new_sorted_results_queue.next_matcher.index_path ∧
    new_sorted_results_queue.next_matcher ≠
      SortedResultsQueueNextMatcher.increment_past
        new_sorted_results_queue.next_matcher ⟨[5], 0, 50⟩ := by
  decide

/-- Claim C3: the spec's own test: two leaf children at `[0]` and `[1]`,
sent in order `[1]` then `[0]`, should come out as `[0]` then `[1]`. The
code yields them in arrival order, `[1]` first. -/
theorem C3_yields_arrival_order :
    runSorted 2 new_sorted_results_queue
        { pending := [⟨[1], 0, 11⟩, ⟨[0], 0, 10⟩], disconnected := false } =
      [some ⟨[1], 0, 11⟩, some ⟨[0], 0, 10⟩] ∧
    [some ⟨[1], 0, 11⟩, some ⟨[0], 0, 10⟩] ≠
      [some ⟨[0], 0, 10⟩, some (⟨[1], 0, 11⟩ : DirEntryContents)] := by
  decide

/-- Claim C4: on every state with an empty buffer and a non-exhausted
tracker — the initial state has this shape and every transition preserves
it, since the result state is unchanged — `SortedResultsQueueIterator.next`
is observationally equal to `ResultsQueueIterator.next`: same returned
entry (the earliest-arrived pending one), same channel evolution, `none`
exactly on a drained disconnected channel; buffer and tracker have no
observable effect. -/
theorem C4_sorted_refines_plain :
    SortedInv new_sorted_results_queue ∧
    ∀ (s : SortedResultsQueueIterator) (ch : Channel), SortedInv s →
      SortedResultsQueueIterator.next s ch =
        (ResultsQueueIterator.next ch).map (fun p => (p.1, s, p.2)) := by
  refine ⟨⟨rfl, by decide⟩, ?_⟩
  intro s ch hs
  exact sorted_next_empty_buffer s ch hs.1 hs.2

theorem C4_witness :
    SortedInv new_sorted_results_queue ∧
    SortedResultsQueueIterator.next new_sorted_results_queue
        { pending := [⟨[3], 0, 30⟩], disconnected := true } =
      (ResultsQueueIterator.next { pending := [⟨[3], 0, 30⟩], disconnected := true }).map
        (fun p => (p.1, new_sorted_results_queue, p.2)) :=
  ⟨⟨rfl, by decide⟩,
    C4_sorted_refines_plain.2 new_sorted_results_queue _ ⟨rfl, by decide⟩⟩

/-- Claim C5: for a finite tree whose entries are all delivered before the
channel closes (modelled by a disconnected channel holding the entry list),
driving the sorted iterator returns exactly one entry per delivered node
and then `none`: as many releases as nodes, then termination. -/
theorem C5_fully_delivered_terminates :
    ∀ ch : Channel, ch.disconnected = true →
      runSorted (ch.pending.length + 1) new_sorted_results_queue ch =
        ch.pending.map some ++ [none] := by
  intro ch hd
  obtain ⟨pending, disc⟩ := ch
  simp only at hd
  subst hd
  exact runSorted_disconnected SortedResultsQueueNextMatcher.default (by decide) pending

theorem C5_witness :
    runSorted 3 new_sorted_results_queue
        { pending := [⟨[0], 1, 1⟩, ⟨[0, 0], 0, 2⟩], disconnected := true } =
      [⟨[0], 1, 1⟩, ⟨[0, 0], 0, 2⟩].map some ++ [none] :=
  C5_fully_delivered_terminates { pending := [⟨[0], 1, 1⟩, ⟨[0, 0], 0, 2⟩], disconnected := true } rfl

/-- Claim C6: once the channel is disconnected and drained, and the tracker
still expects a position, `next` stops waiting: it pops and returns the
buffer's minimum (the head of the sorted buffer) and advances the tracker
past it, even if its position differs from the expected one, and returns
`none` on an empty buffer. -/
theorem C6_terminal_drain :
    ∀ (s : SortedResultsQueueIterator) (ch : Channel),
      ch.pending = [] → ch.disconnected = true → s.next_matcher.index_path ≠ [] →
      SortedResultsQueueIterator.next s ch =
        match s.receive_buffer with
        | [] => some (none, s, ch)
        | item :: rest =>
          some (some item,
            { receive_buffer := rest, next_matcher := s.next_matcher.increment_past item }, ch) := by
  intro s ch hp hd hm
  obtain ⟨buf, m⟩ := s
  obtain ⟨pending, disc⟩ := ch
  simp only at hp hd hm
  subst hp; subst hd
  cases buf with
  | nil =>
    simp [SortedResultsQueueIterator.next, SortedResultsQueueNextMatcher.is_none,
      List.isEmpty_iff, hm]
  | cons item rest =>
    by_cases h : item.index_path = m.index_path
    · simp [SortedResultsQueueIterator.next, h]
    · simp [SortedResultsQueueIterator.next, SortedResultsQueueNextMatcher.is_none,
        List.isEmpty_iff, hm, h]

theorem C6_witness :
    SortedResultsQueueIterator.next
        ⟨[⟨[2], 0, 9⟩], SortedResultsQueueNextMatcher.default⟩
        { pending := [], disconnected := true } =
      some (some ⟨[2], 0, 9⟩,
        { receive_buffer := [],
          next_matcher :=
            SortedResultsQueueNextMatcher.default.increment_past ⟨[2], 0, 9⟩ },
        { pending := [], disconnected := true }) :=
  C6_terminal_drain ⟨[⟨[2], 0, 9⟩], SortedResultsQueueNextMatcher.default⟩
    { pending := [], disconnected := true } rfl rfl (by decide)

/-- Claim C7: when the tracker's index path is empty (traversal reported
complete), `next` returns `none` unconditionally and changes nothing, even
with entries still in the buffer (all of them at non-empty positions, as
every real position is) or on the channel. -/
theorem C7_exhausted_tracker_ends_sequence :
    ∀ (s : SortedResultsQueueIterator) (ch : Channel),
      s.next_matcher.index_path = [] →
      (∀ e ∈ s.receive_buffer, e.index_path ≠ []) →
      SortedResultsQueueIterator.next s ch = some (none, s, ch) := by
  intro s ch hm hbuf
  obtain ⟨buf, m⟩ := s
  simp only at hm hbuf
  cases buf with
  | nil =>
    simp [SortedResultsQueueIterator.next, SortedResultsQueueNextMatcher.is_none, hm]
  | cons item rest =>
    have hne : item.index_path ≠ [] := hbuf item (by simp)
    simp [SortedResultsQueueIterator.next, SortedResultsQueueNextMatcher.is_none, hm, hne]

theorem C7_witness :
    SortedResultsQueueIterator.next
        ⟨[⟨[1], 0, 3⟩], ⟨[], []⟩⟩ { pending := [⟨[4], 1, 4⟩], disconnected := false } =
      some (none, ⟨[⟨[1], 0, 3⟩], ⟨[], []⟩⟩,
        { pending := [⟨[4], 1, 4⟩], disconnected := false }) :=
  C7_exhausted_tracker_ends_sequence ⟨[⟨[1], 0, 3⟩], ⟨[], []⟩⟩
    { pending := [⟨[4], 1, 4⟩], disconnected := false } rfl (by decide)

/-- Claim C8 counterexample: from the state with one open level, index path
`[0]` and one remaining sibling, releasing a leaf entry makes the code pop
the last level (its guard is `!remaining_siblings.is_empty()`, i.e. at
least one level), emptying both stacks, whereas the claimed rule — pop only
while MORE than one level remains open — would leave the state at
`([1], [0])`. -/
theorem C8_counterexample :
    SortedResultsQueueNextMatcher.increment_past ⟨[0], [1]⟩ ⟨[0], 0, 0⟩ =
        (⟨[], []⟩ : SortedResultsQueueNextMatcher) ∧
    claimedAdvanceZero ⟨[0], [1]⟩ = (⟨[1], [0]⟩ : SortedResultsQueueNextMatcher) ∧
    SortedResultsQueueNextMatcher.increment_past ⟨[0], [1]⟩ ⟨[0], 0, 0⟩ ≠
      claimedAdvanceZero ⟨[0], [1]⟩ := by
  decide

/-- Claim C8 (amended): with `branch_count = 0` and stacks of equal depth,
`increment_past` decrements the innermost remaining-count, increments the
innermost sibling index, and then pops a level while the innermost
remaining-count is `0` and AT LEAST one level remains open (the outermost
included, so the stacks can empty entirely), incrementing the new innermost
sibling index after each pop while a level remains. -/
theorem C8_amended_advance_zero (m : SortedResultsQueueNextMatcher) (e : DirEntryContents)
    (hbc : e.remaining_folders_with_contents = 0)
    (hlen : m.index_path.length = m.remaining_siblings.length) :
    m.increment_past e = amendedAdvanceZero m := by
  have h1 : updateLast (· + 1) m.index_path =
      (mapHead (· + 1) m.index_path.reverse).reverse := updateLast_eq_rev _ _
  have h2 : updateLast (· - 1) m.remaining_siblings =
      (mapHead (· - 1) m.remaining_siblings.reverse).reverse := updateLast_eq_rev _ _
  have hl : (mapHead (· + 1) m.index_path.reverse).length =
      (mapHead (· - 1) m.remaining_siblings.reverse).length := by
    simp [length_mapHead, hlen]
  have hu := unwind_eq_amendedUnwind (mapHead (· + 1) m.index_path.reverse)
    (mapHead (· - 1) m.remaining_siblings.reverse) hl
  unfold SortedResultsQueueNextMatcher.increment_past amendedAdvanceZero
  rw [hbc]
  simp only [gt_iff_lt, Nat.lt_irrefl, if_false]
  rw [h1, h2, hu]

theorem C8_amended_witness :
    (⟨[0, 0], 0, 0⟩ : DirEntryContents).remaining_folders_with_contents = 0 ∧
    (⟨[0, 0], [2, 1]⟩ : SortedResultsQueueNextMatcher).index_path.length =
      (⟨[0, 0], [2, 1]⟩ : SortedResultsQueueNextMatcher).remaining_siblings.length ∧
    SortedResultsQueueNextMatcher.increment_past ⟨[0, 0], [2, 1]⟩ ⟨[0, 0], 0, 0⟩ =
      amendedAdvanceZero ⟨[0, 0], [2, 1]⟩ :=
  ⟨rfl, rfl, C8_amended_advance_zero ⟨[0, 0], [2, 1]⟩ ⟨[0, 0], 0, 0⟩ rfl rfl⟩

/-- Claim C9: the plain iterator yields exactly the sent entries in receipt
order (ending with `none` once the channel is disconnected and drained),
and a call returns `none` exactly when every producer handle is dropped and
no entry remains queued. -/
theorem C9_plain_fifo :
    ∀ ch : Channel,
      (ch.disconnected = true →
        runPlain (ch.pending.length + 1) ch = ch.pending.map some ++ [none]) ∧
      (ResultsQueueIterator.next ch = some (none, ch) ↔
        ch.pending = [] ∧ ch.disconnected = true) := by
  intro ch
  obtain ⟨pending, disc⟩ := ch
  constructor
  · intro hd
    simp only at hd
    subst hd
    exact runPlain_disconnected pending
  · cases pending with
    | nil => cases disc <;> simp [ResultsQueueIterator.next]
    | cons e rest => simp [ResultsQueueIterator.next]

theorem C9_witness :
    runPlain 3 { pending := [⟨[0], 1, 1⟩, ⟨[9], 0, 2⟩], disconnected := true } =
      [⟨[0], 1, 1⟩, ⟨[9], 0, 2⟩].map some ++ [none] :=
  (C9_plain_fifo { pending := [⟨[0], 1, 1⟩, ⟨[9], 0, 2⟩], disconnected := true }).1 rfl

/-- Claim C10: on any matcher state with non-empty stacks of equal length,
`increment_past` panics on neither of its `unwrap`s, and the resulting
stacks again have equal length; the initial state `([0], [1])` satisfies
the precondition. -/
theorem C10_increment_past_safe :
    (SortedResultsQueueNextMatcher.default.index_path ≠ [] ∧
     SortedResultsQueueNextMatcher.default.remaining_siblings ≠ [] ∧
     SortedResultsQueueNextMatcher.default.index_path.length =
       SortedResultsQueueNextMatcher.default.remaining_siblings.length) ∧
    ∀ (m : SortedResultsQueueNextMatcher) (e : DirEntryContents),
      m.index_path ≠ [] → m.remaining_siblings ≠ [] →
      m.index_path.length = m.remaining_siblings.length →
      (m.increment_past? e).isSome = true ∧
      ∀ m', m.increment_past? e = some m' →
        m'.index_path.length = m'.remaining_siblings.length := by
  refine ⟨⟨by decide, by decide, by decide⟩, ?_⟩
  intro m e hip hrs hlen
  have heq : m.increment_past? e = some (m.increment_past e) := by
    unfold SortedResultsQueueNextMatcher.increment_past?
    rw [if_neg hrs, if_neg (by intro h; exact hip h.2)]
  refine ⟨by rw [heq]; rfl, ?_⟩
  intro m' hm'
  rw [heq] at hm'
  cases hm'
  exact increment_past_length_eq m e hlen

theorem C10_witness :
    (SortedResultsQueueNextMatcher.increment_past? ⟨[0], [1]⟩ ⟨[7], 0, 0⟩).isSome = true :=
  (C10_increment_past_safe.2 ⟨[0], [1]⟩ ⟨[7], 0, 0⟩ (by decide) (by decide) (by decide)).1
